import Mathlib

/-!
Verification of the note-synthesis engine and the recording/playback subsystem
of the musical-keys virtual keyboard.

The development shallowly embeds the two core source modules:

* the audio engine (a polyphonic voice manager keyed by MIDI note number,
  with deferred cleanup timers scheduled on note release), and
* the recording system (a timestamped event log with timer-driven playback
  and a JSON recording-document (de)serializer).

Deferred callbacks (setTimeout) are modelled by an explicit timer queue inside
a single system state, and the host event loop by a step function that fires
due timers in order of their deadlines.  Audio-graph calls that matter to the
claims (oscillator stop scheduling, node disconnection) are recorded in a per
oscillator resource record.
-/

/-! ### JSON values and the recording document -/

/-- A JSON value, as produced by parsing a recording document. -/
inductive JVal where
  | str (s : String)
  | num (q : ℚ)
  | jbool (b : Bool)
  | jnull
  | arr (elems : List JVal)
  | obj (fields : List (String × JVal))

/-- Property access on a parsed JSON value: a field of an object, otherwise
missing (undefined). -/
def getField (j : JVal) (name : String) : Option JVal :=
  match j with
  | .obj fields => fields.lookup name
  | _ => none

/-- Whether a JSON value is an array (Array.isArray). -/
def JVal.isArr : JVal → Bool
  | .arr _ => true
  | _ => false

/-- A well-formed note event: the record built by the input handler
(notifyRecorder) and stored in the recorded-events log. -/
structure NoteEvent where
  type : String
  note : Nat
  velocity : ℚ
  timestamp : Int
deriving Repr, DecidableEq

/-- JSON serialization of one note event (its four fields, in insertion
order). -/
def eventToJ (e : NoteEvent) : JVal :=
  .obj [("type", .str e.type), ("note", .num e.note), ("velocity", .num e.velocity),
        ("timestamp", .num e.timestamp)]

/-- The recordingData document built by saveRecording: version, wall-clock
date, duration (timestamp of the last event), event count and the events
themselves. -/
def recordingDoc (version date : String) (events : List NoteEvent) : JVal :=
  .obj [("version", .str version), ("date", .str date),
        ("duration", .num (((events.getLast?.map NoteEvent.timestamp).getD 0 : ℤ) : ℚ)),
        ("eventCount", .num (events.length : ℚ)),
        ("events", .arr (events.map eventToJ))]

/-- saveRecording: returns null (none) when there is no recording, otherwise
the serialized document. -/
def saveRecordingJ (version date : String) (events : List NoteEvent) : Option JVal :=
  if events.length = 0 then none else some (recordingDoc version date events)

/-- The two failure modes of loadRecording: the file content does not parse
as JSON at all, or the parsed document fails the structural validation
(events missing or not an array). -/
inductive LoadError where
  | parseError
  | formatError
deriving Repr, DecidableEq

/-- loadRecording, on the parsed file content (none models a JSON.parse
failure): validates that the events field is present and is an array and
returns the raw event array. -/
def loadRecordingResult (input : Option JVal) : Except LoadError (List JVal) :=
  match input with
  | none => .error .parseError
  | some data =>
    match getField data "events" with
    | some (.arr es) => .ok es
    | _ => .error .formatError

/-- loadRecording together with its effect on the in-memory recorded-events
log: the log is overwritten with the raw event array on success and left
untouched on any failure. -/
def loadRecordingSt (input : Option JVal) (recordedEvents : List JVal) :
    List JVal × Except LoadError (List JVal) :=
  match loadRecordingResult input with
  | .ok es => (es, .ok es)
  | .error e => (recordedEvents, .error e)

/-! ### Theorems about the (de)serializer -/

/-- C3: for every non-empty recording session, deserializing the document
produced by serializing that session yields an event sequence identical in
type, note, velocity and timestamp to the original (the wall-clock date field
plays no role in the events). -/
theorem serialize_deserialize_roundtrip :
    ∀ (events : List NoteEvent) (version date : String), events ≠ [] →
      saveRecordingJ version date events = some (recordingDoc version date events) ∧
      loadRecordingResult (some (recordingDoc version date events)) =
        .ok (events.map eventToJ) ∧
      ∀ e ∈ events,
        getField (eventToJ e) "type" = some (.str e.type) ∧
        getField (eventToJ e) "note" = some (.num e.note) ∧
        getField (eventToJ e) "velocity" = some (.num e.velocity) ∧
        getField (eventToJ e) "timestamp" = some (.num e.timestamp) := by
  intro evs v d h
  refine ⟨?_, ?_, ?_⟩
  · simp [saveRecordingJ, List.length_eq_zero, h]
  · simp [loadRecordingResult, recordingDoc, getField, List.lookup]
  · intro e _
    refine ⟨?_, ?_, ?_, ?_⟩ <;> simp [eventToJ, getField, List.lookup]

/-- Witness for C3 at a concrete two-event session. -/
theorem serialize_deserialize_roundtrip_witness :
    saveRecordingJ "1.0" "2024-01-01" [⟨"noteOn", 60, 1/2, 0⟩, ⟨"noteOff", 60, 0, 350⟩] =
      some (recordingDoc "1.0" "2024-01-01" [⟨"noteOn", 60, 1/2, 0⟩, ⟨"noteOff", 60, 0, 350⟩]) ∧
    loadRecordingResult
        (some (recordingDoc "1.0" "2024-01-01" [⟨"noteOn", 60, 1/2, 0⟩, ⟨"noteOff", 60, 0, 350⟩])) =
      .ok ([⟨"noteOn", 60, 1/2, 0⟩, ⟨"noteOff", 60, 0, 350⟩].map eventToJ) ∧
    ∀ e ∈ ([⟨"noteOn", 60, 1/2, 0⟩, ⟨"noteOff", 60, 0, 350⟩] : List NoteEvent),
      getField (eventToJ e) "type" = some (.str e.type) ∧
      getField (eventToJ e) "note" = some (.num e.note) ∧
      getField (eventToJ e) "velocity" = some (.num e.velocity) ∧
      getField (eventToJ e) "timestamp" = some (.num e.timestamp) :=
  serialize_deserialize_roundtrip _ "1.0" "2024-01-01" (by decide)

/-- C4: loadRecording fails with a format error exactly when the parsed
document's events field is missing or is not a sequence; unparseable input
fails with a parse error; and on every failure the in-memory recorded event
log is left completely unchanged. -/
theorem loadRecording_formatError_atomicity :
    (∀ j : JVal, loadRecordingResult (some j) = .error .formatError ↔
        (getField j "events" = none ∨
          ∃ v, getField j "events" = some v ∧ v.isArr = false)) ∧
    loadRecordingResult none = .error .parseError ∧
    (∀ (input : Option JVal) (log : List JVal) (e : LoadError),
        (loadRecordingSt input log).2 = .error e → (loadRecordingSt input log).1 = log) := by
  refine ⟨?_, rfl, ?_⟩
  · intro j
    constructor
    · intro hfail
      cases hev : getField j "events" with
      | none => exact Or.inl rfl
      | some val =>
        cases val with
        | arr es => simp [loadRecordingResult, hev] at hfail
        | str s => exact Or.inr ⟨_, rfl, rfl⟩
        | num q => exact Or.inr ⟨_, rfl, rfl⟩
        | jbool b => exact Or.inr ⟨_, rfl, rfl⟩
        | jnull => exact Or.inr ⟨_, rfl, rfl⟩
        | obj fs => exact Or.inr ⟨_, rfl, rfl⟩
    · rintro (hev | ⟨val, hev, hval⟩)
      · simp [loadRecordingResult, hev]
      · cases val <;> simp_all [loadRecordingResult, JVal.isArr]
  · intro input log e hfail
    unfold loadRecordingSt at hfail ⊢
    cases hres : loadRecordingResult input <;> simp [hres] at hfail ⊢

/-- Witness for C4: a document whose events field is a number fails and
leaves a one-element log untouched. -/
theorem loadRecording_formatError_atomicity_witness :
    (loadRecordingSt (some (.obj [("events", .num 3)])) [.num 7]).1 = [.num 7] :=
  loadRecording_formatError_atomicity.2.2 (some (.obj [("events", .num 3)])) [.num 7]
    .formatError rfl

/-! ### The combined engine, recorder and host-timer state -/

/-- One voice: the oscillator resource it owns (identified by allocation
order), its start instant and the velocity its envelope was scheduled
with. -/
structure Voice where
  oscId : Nat
  startTime : Nat
  velocity : ℚ
deriving Repr, DecidableEq

/-- The observable lifecycle of one oscillator/gain pair: the absolute time
at which osc.stop was scheduled, if any, and whether the nodes have been
disconnected from the audio graph. -/
structure OscRec where
  id : Nat
  stopAt : Option Nat
  disconnected : Bool
deriving Repr, DecidableEq

/-- The deferred callbacks the source registers with setTimeout. -/
inductive TimerAction where
  | engineCleanup (midi : Nat) (oscId : Nat)
  | engineDisconnect (oscId : Nat)
  | playbackEvent (index : Nat) (event : NoteEvent)
  | autoStop
deriving Repr, DecidableEq

/-- A pending host timer: its setTimeout id, its absolute deadline in
milliseconds and the callback it will run. -/
structure Timer where
  id : Nat
  fireAt : Nat
  action : TimerAction
deriving Repr, DecidableEq

/-- The whole-system state: audio engine fields, recording-system fields and
the host scheduler (pending timers and the current time in milliseconds). -/
structure Sys where
  isInit : Bool
  activeNotes : List (Nat × Voice)
  activeNoteCount : Int
  oscs : List OscRec
  nextOscId : Nat
  isRecording : Bool
  isPlaying : Bool
  recordedEvents : List NoteEvent
  recordingStartTime : Int
  playbackTimeouts : List Nat
  timers : List Timer
  nextTimerId : Nat
  now : Nat
deriving Repr, DecidableEq

/-- The state at page load: engine not yet created, everything empty. -/
def initSys : Sys where
  isInit := false
  activeNotes := []
  activeNoteCount := 0
  oscs := []
  nextOscId := 0
  isRecording := false
  isPlaying := false
  recordedEvents := []
  recordingStartTime := 0
  playbackTimeouts := []
  timers := []
  nextTimerId := 0
  now := 0

/-- AudioEngine.init: idempotent allocation of the audio graph. -/
def initEngine (s : Sys) : Sys :=
  if s.isInit then s else { s with isInit := true }

/-- AudioEngine.playNote: no-op when the engine is uninitialized or a voice
for the note is already active; otherwise allocates a fresh oscillator/gain
pair, schedules the envelope, and stores the voice in the active-note map. -/
def playNote (midi : Nat) (velocity : ℚ) (s : Sys) : Sys :=
  if !s.isInit then s
  else if (s.activeNotes.lookup midi).isSome then s
  else
    { s with
      activeNotes := s.activeNotes ++ [(midi, ⟨s.nextOscId, s.now, velocity⟩)]
      oscs := s.oscs ++ [⟨s.nextOscId, none, false⟩]
      nextOscId := s.nextOscId + 1
      activeNoteCount := s.activeNoteCount + 1 }

/-- Map.delete on the active-note map. -/
def mapDelete {β : Type} (l : List (Nat × β)) (k : Nat) : List (Nat × β) :=
  l.filter fun p => p.1 != k

/-- Mark the scheduled stop time of one oscillator (osc.stop(t)). -/
def setOscStop (oscs : List OscRec) (oscId t : Nat) : List OscRec :=
  oscs.map fun o => if o.id = oscId then { o with stopAt := some t } else o

/-- Mark one oscillator/gain pair as disconnected from the audio graph. -/
def setOscDisconnected (oscs : List OscRec) (oscId : Nat) : List OscRec :=
  oscs.map fun o => if o.id = oscId then { o with disconnected := true } else o

/-- AudioEngine.stopNote: no-op when uninitialized or the note has no voice;
otherwise cancels the scheduled envelope, schedules a 100 ms release ramp,
schedules osc.stop at now + 150 ms, and registers a cleanup timer 200 ms out
that will remove the voice entry. -/
def stopNote (midi : Nat) (s : Sys) : Sys :=
  if !s.isInit then s
  else
    match s.activeNotes.lookup midi with
    | none => s
    | some v =>
      { s with
        oscs := setOscStop s.oscs v.oscId (s.now + 150)
        timers := s.timers ++ [⟨s.nextTimerId, s.now + 200, .engineCleanup midi v.oscId⟩]
        nextTimerId := s.nextTimerId + 1 }

/-- The per-voice loop body of stopAllNotes: fast fade, osc.stop at
now + 100 ms and a disconnect timer 150 ms out. -/
def stopAllLoop (entries : List (Nat × Voice)) (s : Sys) : Sys :=
  entries.foldl
    (fun acc p =>
      { acc with
        oscs := setOscStop acc.oscs p.2.oscId (acc.now + 100)
        timers := acc.timers ++ [⟨acc.nextTimerId, acc.now + 150, .engineDisconnect p.2.oscId⟩]
        nextTimerId := acc.nextTimerId + 1 })
    s

/-- AudioEngine.stopAllNotes: emergency stop.  No-op when uninitialized;
otherwise fast-fades every active voice, schedules its deferred disconnect,
then clears the whole active-note map and zeroes the count synchronously. -/
def stopAllNotes (s : Sys) : Sys :=
  if !s.isInit then s
  else
    let s1 := stopAllLoop s.activeNotes s
    { s1 with activeNotes := [], activeNoteCount := 0 }

/-- RecordingSystem.startRecording: no-op when already recording; otherwise
clears the log and captures the start instant (performance.now()). -/
def startRecording (startInstant : Int) (s : Sys) : Sys :=
  if s.isRecording then s
  else { s with isRecording := true, recordedEvents := [], recordingStartTime := startInstant }

/-- RecordingSystem.stopRecording: no-op when not recording; otherwise
freezes the log. -/
def stopRecording (s : Sys) : Sys :=
  if !s.isRecording then s else { s with isRecording := false }

/-- RecordingSystem.recordEvent: no-op unless actively recording; otherwise
appends the event with its timestamp made relative to the recording start. -/
def recordEvent (event : NoteEvent) (s : Sys) : Sys :=
  if !s.isRecording then s
  else { s with recordedEvents :=
          s.recordedEvents ++ [{ event with timestamp := event.timestamp - s.recordingStartTime }] }

/-- The forEach loop of playRecording: registers one setTimeout per recorded
event (paired with its index) at a delay of the event's stored relative
timestamp, and tracks the timeout id in playbackTimeouts. -/
def scheduleEvents : List (Nat × NoteEvent) → Sys → Sys
  | [], s => s
  | p :: rest, s =>
    scheduleEvents rest
      { s with
        timers := s.timers ++ [⟨s.nextTimerId, s.now + p.2.timestamp.toNat, .playbackEvent p.1 p.2⟩]
        playbackTimeouts := s.playbackTimeouts ++ [s.nextTimerId]
        nextTimerId := s.nextTimerId + 1 }

/-- RecordingSystem.playRecording: fails silently when already playing or the
log is empty; otherwise marks playback active, resets the timeout list and
schedules every recorded event. -/
def playRecording (s : Sys) : Sys :=
  if s.isPlaying then s
  else if s.recordedEvents.length = 0 then s
  else scheduleEvents s.recordedEvents.enum { s with isPlaying := true, playbackTimeouts := [] }

/-- RecordingSystem.stopPlayback: no-op when not playing; otherwise clears
every tracked pending timeout, stops all notes in the engine and marks
playback inactive. -/
def stopPlayback (s : Sys) : Sys :=
  if !s.isPlaying then s
  else
    let s1 := { s with
      timers := s.timers.filter (fun tm => !s.playbackTimeouts.contains tm.id)
      playbackTimeouts := [] }
    let s2 := stopAllNotes s1
    { s2 with isPlaying := false }

/-- Run one deferred callback. -/
def fireAction (a : TimerAction) (s : Sys) : Sys :=
  match a with
  | .engineCleanup midi oscId =>
    match s.activeNotes.lookup midi with
    | some v =>
      if v.oscId = oscId then
        { s with
          oscs := setOscDisconnected s.oscs oscId
          activeNotes := mapDelete s.activeNotes midi
          activeNoteCount := s.activeNoteCount - 1 }
      else s
    | none => s
  | .engineDisconnect oscId => { s with oscs := setOscDisconnected s.oscs oscId }
  | .playbackEvent index event =>
    let s1 :=
      if event.type = "noteOn" then playNote event.note event.velocity s
      else if event.type = "noteOff" then stopNote event.note s
      else s
    if index = s1.recordedEvents.length - 1 then
      { s1 with
        timers := s1.timers ++ [⟨s1.nextTimerId, s1.now + 500, .autoStop⟩]
        nextTimerId := s1.nextTimerId + 1 }
    else s1
  | .autoStop => stopPlayback s

/-- The next timer the host event loop would run when advancing to time t:
the pending timer with the earliest deadline not after t (ties broken by
registration order). -/
def pickDue (t : Nat) : List Timer → Option Timer
  | [] => none
  | tm :: rest =>
    if tm.fireAt ≤ t then
      match pickDue t rest with
      | some b => if b.fireAt < tm.fireAt then some b else some tm
      | none => some tm
    else pickDue t rest

/-- Advance the host event loop to time t, firing due timers in deadline
order; fuel bounds the number of callbacks run. -/
def runTimers : Nat → Nat → Sys → Sys
  | 0, _, s => s
  | fuel + 1, t, s =>
    match pickDue t s.timers with
    | none => { s with now := max s.now t }
    | some tm =>
      runTimers fuel t (fireAction tm.action { s with timers := s.timers.erase tm, now := tm.fireAt })

/-! ### Basic lemmas about the association-list voice map -/

theorem lookup_isSome_iff {β : Type} {l : List (Nat × β)} {k : Nat} :
    (l.lookup k).isSome = true ↔ k ∈ l.map Prod.fst := by
  induction l with
  | nil => simp [List.lookup]
  | cons p rest ih =>
    by_cases h : k = p.1
    · subst h
      simp [List.lookup]
    · simp [List.lookup, beq_false_of_ne h, h, ih]

theorem lookup_append_single {β : Type} {l : List (Nat × β)} {k : Nat}
    (h : l.lookup k = none) (b : β) : (l ++ [(k, b)]).lookup k = some b := by
  induction l with
  | nil => simp [List.lookup]
  | cons p rest ih =>
    by_cases hk : k = p.1
    · subst hk
      simp [List.lookup] at h
    · simp only [List.lookup, beq_false_of_ne hk, List.cons_append] at h ⊢
      exact ih h

theorem mapDelete_lookup_ne {β : Type} {l : List (Nat × β)} {k m : Nat} (h : k ≠ m) :
    (mapDelete l m).lookup k = l.lookup k := by
  induction l with
  | nil => rfl
  | cons p rest ih =>
    obtain ⟨a, b⟩ := p
    simp only [mapDelete] at ih
    by_cases ha : a = m
    · subst ha
      simp [mapDelete, List.filter_cons, List.lookup, beq_false_of_ne h, ih]
    · by_cases hk : k = a
      · subst hk
        simp [mapDelete, List.filter_cons, ha, List.lookup]
      · simp [mapDelete, List.filter_cons, ha, List.lookup, beq_false_of_ne hk, ih]

theorem mapDelete_lookup_self {β : Type} {l : List (Nat × β)} {m : Nat} :
    (mapDelete l m).lookup m = none := by
  induction l with
  | nil => rfl
  | cons p rest ih =>
    obtain ⟨a, b⟩ := p
    simp only [mapDelete] at ih
    by_cases ha : a = m
    · subst ha
      simpa [mapDelete, List.filter_cons] using ih
    · have hma : m ≠ a := fun hk => ha hk.symm
      simp [mapDelete, List.filter_cons, ha, List.lookup, beq_false_of_ne hma, ih]

/-- Number of entries of the active-note map carrying a given note key. -/
def countKey (k : Nat) (l : List (Nat × Voice)) : Nat :=
  l.countP fun p => p.1 == k

theorem countKey_eq_count {k : Nat} {l : List (Nat × Voice)} :
    countKey k l = (l.map Prod.fst).count k := by
  induction l with
  | nil => rfl
  | cons p rest ih =>
    simp only [countKey, List.countP_cons, List.map_cons, List.count_cons] at ih ⊢
    rw [ih]

theorem countKey_append {k : Nat} {l₁ l₂ : List (Nat × Voice)} :
    countKey k (l₁ ++ l₂) = countKey k l₁ + countKey k l₂ := by
  simp [countKey, List.countP_append]

/-! ### Characterizations of the two scheduling loops -/

/-- The disconnect timers registered by one run of stopAllNotes. -/
def disconnectTimers (tid now : Nat) : List (Nat × Voice) → List Timer
  | [] => []
  | p :: rest => ⟨tid, now + 150, .engineDisconnect p.2.oscId⟩ :: disconnectTimers (tid + 1) now rest

/-- The effect of the stopAllNotes loop on the oscillator records. -/
def stopOscs (oscs : List OscRec) (now : Nat) : List (Nat × Voice) → List OscRec
  | [] => oscs
  | p :: rest => stopOscs (setOscStop oscs p.2.oscId (now + 100)) now rest

theorem stopAllLoop_spec (l : List (Nat × Voice)) : ∀ s : Sys,
    stopAllLoop l s =
      { s with
        oscs := stopOscs s.oscs s.now l
        timers := s.timers ++ disconnectTimers s.nextTimerId s.now l
        nextTimerId := s.nextTimerId + l.length } := by
  induction l with
  | nil => intro s; simp [stopAllLoop, stopOscs, disconnectTimers]
  | cons p rest ih =>
    intro s
    show stopAllLoop rest _ = _
    rw [ih]
    simp [stopOscs, disconnectTimers, Nat.add_assoc, Nat.add_comm 1 rest.length]

/-- The playback timers registered by one run of playRecording, from the
indexed event list. -/
def pbTimers (tid now : Nat) : List (Nat × NoteEvent) → List Timer
  | [] => []
  | p :: rest => ⟨tid, now + p.2.timestamp.toNat, .playbackEvent p.1 p.2⟩ :: pbTimers (tid + 1) now rest

/-- The consecutive setTimeout ids handed out to one run of playRecording. -/
def pbIds (tid : Nat) : Nat → List Nat
  | 0 => []
  | n + 1 => tid :: pbIds (tid + 1) n

theorem scheduleEvents_spec (l : List (Nat × NoteEvent)) : ∀ s : Sys,
    scheduleEvents l s =
      { s with
        timers := s.timers ++ pbTimers s.nextTimerId s.now l
        playbackTimeouts := s.playbackTimeouts ++ pbIds s.nextTimerId l.length
        nextTimerId := s.nextTimerId + l.length } := by
  induction l with
  | nil => intro s; simp [scheduleEvents, pbTimers, pbIds]
  | cons p rest ih =>
    intro s
    show scheduleEvents rest _ = _
    rw [ih]
    simp [pbTimers, pbIds, Nat.add_assoc, Nat.add_comm 1 rest.length]

theorem pbTimers_mem (l : List (Nat × NoteEvent)) : ∀ (tid now : Nat), ∀ p ∈ l,
    ∃ tm ∈ pbTimers tid now l,
      tm.action = .playbackEvent p.1 p.2 ∧ tm.fireAt = now + p.2.timestamp.toNat := by
  induction l with
  | nil => intro tid now p hp; simp at hp
  | cons q rest ih =>
    intro tid now p hp
    rcases List.mem_cons.mp hp with hq | hrest
    · subst hq
      exact ⟨_, List.mem_cons_self _ _, by simp [pbTimers]⟩
    · obtain ⟨tm, htm, hact, hfire⟩ := ih (tid + 1) now p hrest
      exact ⟨tm, List.mem_cons_of_mem _ htm, hact, hfire⟩

/-! ### Field-preservation lemmas -/

theorem playNote_recordedEvents (midi : Nat) (vel : ℚ) (s : Sys) :
    (playNote midi vel s).recordedEvents = s.recordedEvents := by
  unfold playNote
  split
  · rfl
  · split <;> rfl

theorem stopNote_recordedEvents (midi : Nat) (s : Sys) :
    (stopNote midi s).recordedEvents = s.recordedEvents := by
  unfold stopNote
  split
  · rfl
  · split <;> rfl

theorem stopAllNotes_recordedEvents (s : Sys) :
    (stopAllNotes s).recordedEvents = s.recordedEvents := by
  unfold stopAllNotes
  split
  · rfl
  · rw [stopAllLoop_spec]

theorem stopPlayback_recordedEvents (s : Sys) :
    (stopPlayback s).recordedEvents = s.recordedEvents := by
  unfold stopPlayback
  split
  · rfl
  · rw [show ∀ s2 : Sys, ({ s2 with isPlaying := false } : Sys).recordedEvents = s2.recordedEvents
        from fun _ => rfl]
    rw [stopAllNotes_recordedEvents]

theorem playRecording_recordedEvents (s : Sys) :
    (playRecording s).recordedEvents = s.recordedEvents := by
  unfold playRecording
  split
  · rfl
  split
  · rfl
  · rw [scheduleEvents_spec]

theorem fireAction_recordedEvents (a : TimerAction) (s : Sys) :
    (fireAction a s).recordedEvents = s.recordedEvents := by
  cases a with
  | engineCleanup midi oscId =>
    cases hl : s.activeNotes.lookup midi with
    | none => simp [fireAction, hl]
    | some v => by_cases hv : v.oscId = oscId <;> simp [fireAction, hl, hv]
  | engineDisconnect oscId => rfl
  | playbackEvent index event =>
    simp only [fireAction]
    split
    · split <;> exact playNote_recordedEvents _ _ _
    · split <;> split <;> first
        | exact stopNote_recordedEvents _ _
        | rfl
  | autoStop => exact stopPlayback_recordedEvents s

theorem runTimers_recordedEvents (fuel : Nat) : ∀ (t : Nat) (s : Sys),
    (runTimers fuel t s).recordedEvents = s.recordedEvents := by
  induction fuel with
  | zero => intro t s; rfl
  | succ n ih =>
    intro t s
    unfold runTimers
    cases h : pickDue t s.timers with
    | none => rfl
    | some tm => rw [ih, fireAction_recordedEvents]

/-! ### Claims C7, C10 and C5 -/

/-- C7: recordEvent is a no-op when not actively recording; when recording it
appends exactly one event, equal to the given one except that its timestamp is
replaced by the raw timestamp minus the recording start instant, leaving all
previously recorded events unchanged. -/
theorem recordEvent_appends :
    (∀ (s : Sys) (e : NoteEvent), s.isRecording = false → recordEvent e s = s) ∧
    (∀ (s : Sys) (e : NoteEvent), s.isRecording = true →
      (recordEvent e s).recordedEvents =
        s.recordedEvents ++ [{ e with timestamp := e.timestamp - s.recordingStartTime }]) := by
  constructor
  · intro s e h
    simp [recordEvent, h]
  · intro s e h
    simp [recordEvent, h]

/-- Witness for C7: recording one event at raw time 130 with start instant
100 appends it with relative timestamp 30. -/
theorem recordEvent_appends_witness :
    (recordEvent ⟨"noteOn", 60, 1/2, 130⟩
        { initSys with isRecording := true, recordingStartTime := 100 }).recordedEvents =
      ({ initSys with isRecording := true, recordingStartTime := 100 } : Sys).recordedEvents ++
        [{ (⟨"noteOn", 60, 1/2, 130⟩ : NoteEvent) with timestamp := 130 - 100 }] :=
  recordEvent_appends.2 { initSys with isRecording := true, recordingStartTime := 100 }
    ⟨"noteOn", 60, 1/2, 130⟩ rfl

/-- C10: playback never mutates the recorded event log: playRecording,
stopPlayback and any run of deferred callbacks (including the playback
callbacks themselves) leave the recorded events array element-for-element
unchanged, so a recording can be replayed or saved repeatedly. -/
theorem playback_never_mutates_log :
    (∀ s : Sys, (playRecording s).recordedEvents = s.recordedEvents) ∧
    (∀ s : Sys, (stopPlayback s).recordedEvents = s.recordedEvents) ∧
    (∀ (fuel t : Nat) (s : Sys), (runTimers fuel t s).recordedEvents = s.recordedEvents) :=
  ⟨playRecording_recordedEvents, stopPlayback_recordedEvents, runTimers_recordedEvents⟩

/-- C5: playRecording fails silently (state unchanged) when a playback is
already running or the session has zero events; otherwise it marks playback
active and registers exactly one deferred callback per recorded event, at a
delay equal to the event's stored relative timestamp. -/
theorem playRecording_guards_and_schedules :
    (∀ s : Sys, s.isPlaying = true → playRecording s = s) ∧
    (∀ s : Sys, s.recordedEvents = [] → playRecording s = s) ∧
    (∀ s : Sys, s.isPlaying = false → s.recordedEvents ≠ [] →
      (playRecording s).isPlaying = true ∧
      (playRecording s).timers =
        s.timers ++ pbTimers s.nextTimerId s.now s.recordedEvents.enum ∧
      (playRecording s).playbackTimeouts = pbIds s.nextTimerId s.recordedEvents.length ∧
      ∀ (i : Nat) (e : NoteEvent), s.recordedEvents[i]? = some e → 0 ≤ e.timestamp →
        ∃ tm ∈ (playRecording s).timers,
          tm.action = .playbackEvent i e ∧ (tm.fireAt : Int) = (s.now : Int) + e.timestamp) := by
  refine ⟨?_, ?_, ?_⟩
  · intro s h
    simp [playRecording, h]
  · intro s h
    simp [playRecording, h]
  · intro s hp hne
    have hlen : ¬s.recordedEvents.length = 0 := fun h0 => hne (List.length_eq_zero.mp h0)
    have hpr : playRecording s =
        { s with
          isPlaying := true
          timers := s.timers ++ pbTimers s.nextTimerId s.now s.recordedEvents.enum
          playbackTimeouts := pbIds s.nextTimerId s.recordedEvents.enum.length
          nextTimerId := s.nextTimerId + s.recordedEvents.enum.length } := by
      unfold playRecording
      rw [if_neg (by simp [hp]), if_neg hlen, scheduleEvents_spec]
      rfl
    refine ⟨by rw [hpr], by rw [hpr], by rw [hpr]; simp [List.enum_length], ?_⟩
    intro i e hi hnn
    have hmem : (i, e) ∈ s.recordedEvents.enum := List.mk_mem_enum_iff_getElem?.mpr hi
    obtain ⟨tm, htm, hact, hfire⟩ := pbTimers_mem _ s.nextTimerId s.now (i, e) hmem
    refine ⟨tm, ?_, hact, ?_⟩
    · rw [hpr]
      exact List.mem_append_right _ htm
    · rw [hfire]
      push_cast [Int.toNat_of_nonneg hnn]
      ring

/-- Witness for C5: playing a one-event session from the idle state marks
playback active. -/
theorem playRecording_guards_and_schedules_witness :
    (playRecording { initSys with recordedEvents := [⟨"noteOn", 60, 1/2, 250⟩] }).isPlaying = true :=
  (playRecording_guards_and_schedules.2.2
    { initSys with recordedEvents := [⟨"noteOn", 60, 1/2, 250⟩] } rfl (by decide)).1

/-! ### Well-formedness invariant and reachability -/

/-- Whether a deferred callback is one of playRecording's per-event
callbacks. -/
def TimerAction.isPlayback : TimerAction → Bool
  | .playbackEvent _ _ => true
  | _ => false

/-- The oscillator id an engine callback refers to, if any. -/
def actionOscId : TimerAction → Option Nat
  | .engineCleanup _ oscId => some oscId
  | .engineDisconnect oscId => some oscId
  | _ => none

/-- States produced by the source operations satisfy this well-formedness
invariant: unique note keys, an empty engine before initialization, fresh
oscillator ids, and playback timers tracked by playbackTimeouts. -/
def WF (s : Sys) : Prop :=
  (s.activeNotes.map Prod.fst).Nodup ∧
  (s.isInit = false → s.activeNotes = [] ∧ s.activeNoteCount = 0) ∧
  (∀ p ∈ s.activeNotes, p.2.oscId < s.nextOscId) ∧
  (∀ tm ∈ s.timers, ∀ oid, actionOscId tm.action = some oid → oid < s.nextOscId) ∧
  (∀ tm ∈ s.timers, tm.action.isPlayback = true → tm.id ∈ s.playbackTimeouts) ∧
  (s.isPlaying = false → ∀ tm ∈ s.timers, tm.action.isPlayback = false)

/-- The states reachable from page load through the operations of the two
modules (including successful loads, which replace the event log, and any
amount of host-timer processing). -/
inductive Reachable : Sys → Prop where
  | start : Reachable initSys
  | engineInit {s : Sys} : Reachable s → Reachable (initEngine s)
  | play {s : Sys} (midi : Nat) (vel : ℚ) : Reachable s → Reachable (playNote midi vel s)
  | stop {s : Sys} (midi : Nat) : Reachable s → Reachable (stopNote midi s)
  | stopAll {s : Sys} : Reachable s → Reachable (stopAllNotes s)
  | startRec {s : Sys} (t : Int) : Reachable s → Reachable (startRecording t s)
  | stopRec {s : Sys} : Reachable s → Reachable (stopRecording s)
  | record {s : Sys} (e : NoteEvent) : Reachable s → Reachable (recordEvent e s)
  | playRec {s : Sys} : Reachable s → Reachable (playRecording s)
  | stopPlay {s : Sys} : Reachable s → Reachable (stopPlayback s)
  | setLog {s : Sys} (evs : List NoteEvent) : Reachable s → Reachable { s with recordedEvents := evs }
  | advance {s : Sys} (fuel t : Nat) : Reachable s → Reachable (runTimers fuel t s)

theorem lookup_some_mem {β : Type} {l : List (Nat × β)} {k : Nat} {b : β}
    (h : l.lookup k = some b) : (k, b) ∈ l := by
  induction l with
  | nil => simp [List.lookup] at h
  | cons p rest ih =>
    obtain ⟨a, c⟩ := p
    by_cases hk : k = a
    · subst hk
      simp [List.lookup] at h
      simp [h]
    · simp only [List.lookup, beq_false_of_ne hk] at h
      exact List.mem_cons_of_mem _ (ih h)

theorem pickDue_mem {t : Nat} : ∀ {l : List Timer} {tm : Timer},
    pickDue t l = some tm → tm ∈ l ∧ tm.fireAt ≤ t := by
  intro l
  induction l with
  | nil => intro tm h; simp [pickDue] at h
  | cons a rest ih =>
    intro tm h
    simp only [pickDue] at h
    by_cases ha : a.fireAt ≤ t
    · rw [if_pos ha] at h
      split at h
      · rename_i b hp
        split at h <;> cases h
        · obtain ⟨hmem, hle⟩ := ih hp
          exact ⟨List.mem_cons_of_mem _ hmem, hle⟩
        · exact ⟨List.mem_cons_self _ _, ha⟩
      · cases h
        exact ⟨List.mem_cons_self _ _, ha⟩
    · rw [if_neg ha] at h
      obtain ⟨hmem, hle⟩ := ih h
      exact ⟨List.mem_cons_of_mem _ hmem, hle⟩

theorem pickDue_none {t : Nat} : ∀ {l : List Timer},
    pickDue t l = none → ∀ tm ∈ l, ¬tm.fireAt ≤ t := by
  intro l
  induction l with
  | nil => intro _ tm h; simp at h
  | cons a rest ih =>
    intro h tm hmem
    simp only [pickDue] at h
    by_cases ha : a.fireAt ≤ t
    · rw [if_pos ha] at h
      split at h
      · split at h <;> cases h
      · cases h
    · rw [if_neg ha] at h
      rcases List.mem_cons.mp hmem with hq | hq
      · subst hq; exact ha
      · exact ih h tm hq

theorem disconnectTimers_action (l : List (Nat × Voice)) : ∀ (tid now : Nat) (tm : Timer),
    tm ∈ disconnectTimers tid now l → ∃ p ∈ l, tm.action = .engineDisconnect p.2.oscId := by
  induction l with
  | nil => intro tid now tm h; simp [disconnectTimers] at h
  | cons q rest ih =>
    intro tid now tm h
    rcases List.mem_cons.mp h with hq | hq
    · exact ⟨q, List.mem_cons_self _ _, by rw [hq]⟩
    · obtain ⟨p, hp, hact⟩ := ih (tid + 1) now tm hq
      exact ⟨p, List.mem_cons_of_mem _ hp, hact⟩

theorem pbTimers_action (l : List (Nat × NoteEvent)) : ∀ (tid now : Nat) (tm : Timer),
    tm ∈ pbTimers tid now l →
      (∃ p ∈ l, tm.action = .playbackEvent p.1 p.2) ∧ tm.id ∈ pbIds tid l.length := by
  induction l with
  | nil => intro tid now tm h; simp [pbTimers] at h
  | cons q rest ih =>
    intro tid now tm h
    rcases List.mem_cons.mp h with hq | hq
    · subst hq
      exact ⟨⟨q, List.mem_cons_self _ _, rfl⟩, by simp [pbIds]⟩
    · obtain ⟨⟨p, hp, hact⟩, hid⟩ := ih (tid + 1) now tm hq
      refine ⟨⟨p, List.mem_cons_of_mem _ hp, hact⟩, ?_⟩
      simp only [List.length_cons, pbIds]
      exact List.mem_cons_of_mem _ hid

/-! ### Equation lemmas for the deferred callbacks -/

theorem fireAction_cleanup_none {midi oscId : Nat} {s : Sys}
    (hl : s.activeNotes.lookup midi = none) :
    fireAction (.engineCleanup midi oscId) s = s := by
  simp [fireAction, hl]

theorem fireAction_cleanup_other {midi oscId : Nat} {s : Sys} {v : Voice}
    (hl : s.activeNotes.lookup midi = some v) (hv : v.oscId ≠ oscId) :
    fireAction (.engineCleanup midi oscId) s = s := by
  simp [fireAction, hl, hv]

theorem fireAction_cleanup_same {midi oscId : Nat} {s : Sys} {v : Voice}
    (hl : s.activeNotes.lookup midi = some v) (hv : v.oscId = oscId) :
    fireAction (.engineCleanup midi oscId) s =
      { s with
        oscs := setOscDisconnected s.oscs oscId
        activeNotes := mapDelete s.activeNotes midi
        activeNoteCount := s.activeNoteCount - 1 } := by
  simp [fireAction, hl, hv]

theorem fireAction_autoStop_eq (s : Sys) : fireAction .autoStop s = stopPlayback s := rfl

theorem playNote_isPlaying (midi : Nat) (vel : ℚ) (s : Sys) :
    (playNote midi vel s).isPlaying = s.isPlaying := by
  unfold playNote
  split
  · rfl
  · split <;> rfl

theorem stopNote_isPlaying (midi : Nat) (s : Sys) :
    (stopNote midi s).isPlaying = s.isPlaying := by
  unfold stopNote
  split
  · rfl
  · split <;> rfl

theorem playNote_timers (midi : Nat) (vel : ℚ) (s : Sys) :
    (playNote midi vel s).timers = s.timers := by
  unfold playNote
  split
  · rfl
  · split <;> rfl

/-! ### Preservation of the invariant by every operation -/

theorem WF_initSys : WF initSys := by
  refine ⟨by simp [initSys], fun _ => ⟨rfl, rfl⟩, ?_, ?_, ?_, fun _ => ?_⟩ <;>
    intro x hx <;> simp [initSys] at hx

theorem WF_initEngine {s : Sys} (h : WF s) : WF (initEngine s) := by
  unfold initEngine
  split
  · exact h
  · obtain ⟨h1, h2, h3, h4, h5, h6⟩ := h
    exact ⟨h1, by simp, h3, h4, h5, h6⟩

theorem WF_playNote {s : Sys} (midi : Nat) (vel : ℚ) (h : WF s) : WF (playNote midi vel s) := by
  obtain ⟨h1, h2, h3, h4, h5, h6⟩ := h
  unfold playNote
  split
  · exact ⟨h1, h2, h3, h4, h5, h6⟩
  split
  · exact ⟨h1, h2, h3, h4, h5, h6⟩
  · rename_i hinit hlook
    have hi : s.isInit = true := by simpa using hinit
    have hnotin : midi ∉ s.activeNotes.map Prod.fst := by
      intro hmem
      exact hlook (lookup_isSome_iff.mpr hmem)
    refine ⟨?_, ?_, ?_, ?_, h5, h6⟩
    · simp only [List.map_append, List.map_cons, List.map_nil]
      refine List.Nodup.append h1 (by simp) ?_
      intro a ha hb
      simp only [List.mem_singleton] at hb
      exact hnotin (hb ▸ ha)
    · intro hf
      rw [hi] at hf
      cases hf
    · intro p hp
      rcases List.mem_append.mp hp with hpl | hpr
      · exact Nat.lt_succ_of_lt (h3 p hpl)
      · simp only [List.mem_singleton] at hpr
        subst hpr
        exact Nat.lt_succ_self _
    · intro tm htm oid hoid
      exact Nat.lt_succ_of_lt (h4 tm htm oid hoid)

theorem WF_stopNote {s : Sys} (midi : Nat) (h : WF s) : WF (stopNote midi s) := by
  obtain ⟨h1, h2, h3, h4, h5, h6⟩ := h
  unfold stopNote
  split
  · exact ⟨h1, h2, h3, h4, h5, h6⟩
  · split
    · exact ⟨h1, h2, h3, h4, h5, h6⟩
    · rename_i v hv
      have hvm : (midi, v) ∈ s.activeNotes := lookup_some_mem hv
      refine ⟨h1, h2, h3, ?_, ?_, ?_⟩
      · intro tm htm oid hoid
        rcases List.mem_append.mp htm with ht | ht
        · exact h4 tm ht oid hoid
        · simp only [List.mem_singleton] at ht
          subst ht
          simp only [actionOscId, Option.some.injEq] at hoid
          exact hoid ▸ h3 _ hvm
      · intro tm htm hpb
        rcases List.mem_append.mp htm with ht | ht
        · exact h5 tm ht hpb
        · simp only [List.mem_singleton] at ht
          subst ht
          simp [TimerAction.isPlayback] at hpb
      · intro hnp tm htm
        rcases List.mem_append.mp htm with ht | ht
        · exact h6 hnp tm ht
        · simp only [List.mem_singleton] at ht
          subst ht
          rfl

theorem WF_stopAllNotes {s : Sys} (h : WF s) : WF (stopAllNotes s) := by
  obtain ⟨h1, h2, h3, h4, h5, h6⟩ := h
  unfold stopAllNotes
  split
  · exact ⟨h1, h2, h3, h4, h5, h6⟩
  · rw [stopAllLoop_spec]
    refine ⟨by simp, fun _ => ⟨rfl, rfl⟩, by simp, ?_, ?_, ?_⟩
    · intro tm htm oid hoid
      rcases List.mem_append.mp htm with ht | ht
      · exact h4 tm ht oid hoid
      · obtain ⟨p, hp, hact⟩ := disconnectTimers_action _ _ _ _ ht
        rw [hact] at hoid
        simp only [actionOscId, Option.some.injEq] at hoid
        exact hoid ▸ h3 p hp
    · intro tm htm hpb
      rcases List.mem_append.mp htm with ht | ht
      · exact h5 tm ht hpb
      · obtain ⟨p, hp, hact⟩ := disconnectTimers_action _ _ _ _ ht
        rw [hact] at hpb
        simp [TimerAction.isPlayback] at hpb
    · intro hnp tm htm
      rcases List.mem_append.mp htm with ht | ht
      · exact h6 hnp tm ht
      · obtain ⟨p, hp, hact⟩ := disconnectTimers_action _ _ _ _ ht
        rw [hact]
        rfl

theorem WF_startRecording {s : Sys} (t : Int) (h : WF s) : WF (startRecording t s) := by
  unfold startRecording
  split
  · exact h
  · exact h

theorem WF_stopRecording {s : Sys} (h : WF s) : WF (stopRecording s) := by
  unfold stopRecording
  split
  · exact h
  · exact h

theorem WF_recordEvent {s : Sys} (e : NoteEvent) (h : WF s) : WF (recordEvent e s) := by
  unfold recordEvent
  split
  · exact h
  · exact h

theorem WF_setLog {s : Sys} (evs : List NoteEvent) (h : WF s) :
    WF { s with recordedEvents := evs } := h

theorem WF_playRecording {s : Sys} (h : WF s) : WF (playRecording s) := by
  obtain ⟨h1, h2, h3, h4, h5, h6⟩ := h
  unfold playRecording
  split
  · exact ⟨h1, h2, h3, h4, h5, h6⟩
  split
  · exact ⟨h1, h2, h3, h4, h5, h6⟩
  · rename_i hp hlen
    rw [scheduleEvents_spec]
    have hnp : ∀ tm ∈ s.timers, tm.action.isPlayback = false := h6 (by simpa using hp)
    refine ⟨h1, h2, h3, ?_, ?_, ?_⟩
    · intro tm htm oid hoid
      rcases List.mem_append.mp htm with ht | ht
      · exact h4 tm ht oid hoid
      · obtain ⟨⟨p, hp2, hact⟩, hid⟩ := pbTimers_action _ _ _ tm ht
        rw [hact] at hoid
        simp [actionOscId] at hoid
    · intro tm htm hpb
      rcases List.mem_append.mp htm with ht | ht
      · rw [hnp tm ht] at hpb
        cases hpb
      · obtain ⟨⟨p, hp2, hact⟩, hid⟩ := pbTimers_action _ _ _ tm ht
        simpa using hid
    · intro hf
      cases hf

theorem WF_stopPlayback {s : Sys} (h : WF s) : WF (stopPlayback s) := by
  obtain ⟨h1, h2, h3, h4, h5, h6⟩ := h
  unfold stopPlayback
  split
  · exact ⟨h1, h2, h3, h4, h5, h6⟩
  · have hno1 : ∀ tm ∈ s.timers.filter (fun tm => !s.playbackTimeouts.contains tm.id),
        tm.action.isPlayback = false := by
      intro tm htm
      have hmem := List.mem_of_mem_filter htm
      have hfilt := List.of_mem_filter htm
      by_cases hpb : tm.action.isPlayback = true
      · have hid := h5 tm hmem hpb
        simp [hid] at hfilt
      · simpa using hpb
    have hWFs1 : WF { s with
        timers := s.timers.filter (fun tm => !s.playbackTimeouts.contains tm.id)
        playbackTimeouts := [] } := by
      refine ⟨h1, h2, h3, ?_, ?_, ?_⟩
      · intro tm htm oid hoid
        exact h4 tm (List.mem_of_mem_filter htm) oid hoid
      · intro tm htm hpb
        rw [hno1 tm htm] at hpb
        cases hpb
      · intro _ tm htm
        exact hno1 tm htm
    have hno2 : ∀ tm ∈ (stopAllNotes { s with
        timers := s.timers.filter (fun tm => !s.playbackTimeouts.contains tm.id)
        playbackTimeouts := [] }).timers, tm.action.isPlayback = false := by
      unfold stopAllNotes
      split
      · exact hno1
      · rw [stopAllLoop_spec]
        intro tm htm
        rcases List.mem_append.mp htm with ht | ht
        · exact hno1 tm ht
        · obtain ⟨p, hp2, hact⟩ := disconnectTimers_action _ _ _ _ ht
          rw [hact]
          rfl
    obtain ⟨g1, g2, g3, g4, g5, g6⟩ := WF_stopAllNotes hWFs1
    refine ⟨g1, g2, g3, g4, ?_, fun _ tm htm => hno2 tm htm⟩
    intro tm htm hpb
    rw [hno2 tm htm] at hpb
    cases hpb

/-- The note action performed by one playback callback: noteOn plays the
event's note, noteOff stops it, anything else is skipped. -/
def playbackStep (event : NoteEvent) (s : Sys) : Sys :=
  if event.type = "noteOn" then playNote event.note event.velocity s
  else if event.type = "noteOff" then stopNote event.note s
  else s

theorem fireAction_playback_eq (index : Nat) (event : NoteEvent) (s : Sys) :
    fireAction (.playbackEvent index event) s =
      (if index = (playbackStep event s).recordedEvents.length - 1 then
        { playbackStep event s with
          timers := (playbackStep event s).timers ++
            [⟨(playbackStep event s).nextTimerId, (playbackStep event s).now + 500, .autoStop⟩]
          nextTimerId := (playbackStep event s).nextTimerId + 1 }
      else playbackStep event s) := rfl

theorem WF_playbackStep {s : Sys} (event : NoteEvent) (h : WF s) : WF (playbackStep event s) := by
  unfold playbackStep
  split
  · exact WF_playNote _ _ h
  split
  · exact WF_stopNote _ h
  · exact h

theorem playbackStep_isPlaying (event : NoteEvent) (s : Sys) :
    (playbackStep event s).isPlaying = s.isPlaying := by
  unfold playbackStep
  split
  · exact playNote_isPlaying _ _ _
  split
  · exact stopNote_isPlaying _ _
  · rfl

theorem WF_fire {s : Sys} {tm : Timer} (h : WF s) (htm : tm ∈ s.timers) :
    WF (fireAction tm.action { s with timers := s.timers.erase tm, now := tm.fireAt }) := by
  have hsub : ∀ x ∈ s.timers.erase tm, x ∈ s.timers := fun x hx =>
    (List.erase_sublist tm s.timers).subset hx
  obtain ⟨h1, h2, h3, h4, h5, h6⟩ := h
  have h0 : WF { s with timers := s.timers.erase tm, now := tm.fireAt } :=
    ⟨h1, h2, h3, fun x hx oid ho => h4 x (hsub x hx) oid ho,
      fun x hx hpb => h5 x (hsub x hx) hpb,
      fun hnp x hx => h6 hnp x (hsub x hx)⟩
  cases hact : tm.action with
  | engineCleanup midi oscId =>
    cases hl : ({ s with timers := s.timers.erase tm, now := tm.fireAt } : Sys).activeNotes.lookup
        midi with
    | none =>
      rw [fireAction_cleanup_none hl]
      exact h0
    | some v =>
      by_cases hv : v.oscId = oscId
      · rw [fireAction_cleanup_same hl hv]
        obtain ⟨g1, g2, g3, g4, g5, g6⟩ := h0
        refine ⟨?_, ?_, ?_, g4, g5, g6⟩
        · simp only [mapDelete]
          exact g1.sublist (List.Sublist.map _ (List.filter_sublist _))
        · intro hf
          rw [(g2 hf).1] at hl
          simp [List.lookup] at hl
        · intro p hp
          exact g3 p (List.mem_of_mem_filter hp)
      · rw [fireAction_cleanup_other hl hv]
        exact h0
  | engineDisconnect oscId => exact h0
  | playbackEvent index event =>
    by_cases hp : s.isPlaying = true
    · have hWF1 := WF_playbackStep (s := { s with timers := s.timers.erase tm, now := tm.fireAt })
        event h0
      have hPl1 := playbackStep_isPlaying event { s with timers := s.timers.erase tm, now := tm.fireAt }
      rw [fireAction_playback_eq]
      split
      · obtain ⟨g1, g2, g3, g4, g5, g6⟩ := hWF1
        refine ⟨g1, g2, g3, ?_, ?_, ?_⟩
        · intro x hx oid ho
          rcases List.mem_append.mp hx with hx1 | hx1
          · exact g4 x hx1 oid ho
          · simp only [List.mem_singleton] at hx1
            subst hx1
            simp [actionOscId] at ho
        · intro x hx hpb
          rcases List.mem_append.mp hx with hx1 | hx1
          · exact g5 x hx1 hpb
          · simp only [List.mem_singleton] at hx1
            subst hx1
            simp [TimerAction.isPlayback] at hpb
        · intro hf
          rw [hPl1] at hf
          rw [hp] at hf
          cases hf
      · exact hWF1
    · have hfalse : s.isPlaying = false := by simpa using hp
      have hcontra := h6 hfalse tm htm
      rw [hact] at hcontra
      simp [TimerAction.isPlayback] at hcontra
  | autoStop => exact WF_stopPlayback h0

theorem WF_runTimers (fuel : Nat) : ∀ (t : Nat) (s : Sys), WF s → WF (runTimers fuel t s) := by
  induction fuel with
  | zero => intro t s h; exact h
  | succ n ih =>
    intro t s h
    unfold runTimers
    cases hp : pickDue t s.timers with
    | none => exact h
    | some tm => exact ih t _ (WF_fire h (pickDue_mem hp).1)

/-- Every reachable state is well-formed. -/
theorem reachable_wf {s : Sys} (h : Reachable s) : WF s := by
  induction h with
  | start => exact WF_initSys
  | engineInit _ ih => exact WF_initEngine ih
  | play midi vel _ ih => exact WF_playNote midi vel ih
  | stop midi _ ih => exact WF_stopNote midi ih
  | stopAll _ ih => exact WF_stopAllNotes ih
  | startRec t _ ih => exact WF_startRecording t ih
  | stopRec _ ih => exact WF_stopRecording ih
  | record e _ ih => exact WF_recordEvent e ih
  | playRec _ ih => exact WF_playRecording ih
  | stopPlay _ ih => exact WF_stopPlayback ih
  | setLog evs _ ih => exact WF_setLog evs ih
  | advance fuel t _ ih => exact WF_runTimers fuel t _ ih

/-! ### Claims C1 and C2 -/

/-- C1: a noteOn for a note whose voice is already in the active-note map is
a silent no-op that changes no engine state; two consecutive noteOns for the
same note on an initialized reachable state leave exactly one active voice
for that note; and every reachable state holds at most one live voice per
note identifier. -/
theorem playNote_single_voice :
    (∀ (s : Sys) (midi : Nat) (vel : ℚ), (s.activeNotes.lookup midi).isSome = true →
      playNote midi vel s = s) ∧
    (∀ (s : Sys) (midi : Nat) (vel1 vel2 : ℚ), Reachable s → s.isInit = true →
      countKey midi (playNote midi vel2 (playNote midi vel1 s)).activeNotes = 1) ∧
    (∀ s : Sys, Reachable s → ∀ midi : Nat, countKey midi s.activeNotes ≤ 1) := by
  have hkey3 : ∀ s : Sys, Reachable s → ∀ midi : Nat, countKey midi s.activeNotes ≤ 1 := by
    intro s hr midi
    obtain ⟨h1, -, -, -, -, -⟩ := reachable_wf hr
    rw [countKey_eq_count]
    exact List.nodup_iff_count_le_one.mp h1 midi
  have hnoop : ∀ (s : Sys) (midi : Nat) (vel : ℚ), (s.activeNotes.lookup midi).isSome = true →
      playNote midi vel s = s := by
    intro s midi vel h
    unfold playNote
    split <;> try rfl
  refine ⟨hnoop, ?_, hkey3⟩
  intro s midi vel1 vel2 hr hinit
  cases hl : s.activeNotes.lookup midi with
  | some v =>
    rw [hnoop s midi vel1 (by rw [hl]; rfl), hnoop s midi vel2 (by rw [hl]; rfl)]
    obtain ⟨hnd, -, -, -, -, -⟩ := reachable_wf hr
    rw [countKey_eq_count]
    exact List.count_eq_one_of_mem hnd (lookup_isSome_iff.mp (by rw [hl]; rfl))
  | none =>
    have hmid : midi ∉ s.activeNotes.map Prod.fst := by
      intro hm
      have hcontra := lookup_isSome_iff.mpr hm
      rw [hl] at hcontra
      simp at hcontra
    have hplay1 : playNote midi vel1 s =
        { s with
          activeNotes := s.activeNotes ++ [(midi, ⟨s.nextOscId, s.now, vel1⟩)]
          oscs := s.oscs ++ [⟨s.nextOscId, none, false⟩]
          nextOscId := s.nextOscId + 1
          activeNoteCount := s.activeNoteCount + 1 } := by
      unfold playNote
      rw [if_neg (by simp [hinit]), if_neg (by simp [hl])]
    have hl2 : (playNote midi vel1 s).activeNotes.lookup midi =
        some ⟨s.nextOscId, s.now, vel1⟩ := by
      rw [hplay1]
      exact lookup_append_single hl _
    rw [hnoop _ midi vel2 (by rw [hl2]; rfl), hplay1]
    show countKey midi (s.activeNotes ++ [(midi, ⟨s.nextOscId, s.now, vel1⟩)]) = 1
    rw [countKey_append]
    have hc0 : countKey midi s.activeNotes = 0 := by
      rw [countKey_eq_count]
      exact List.count_eq_zero.mpr hmid
    rw [hc0]
    simp [countKey, List.countP_cons]

/-- Witness for C1: two noteOns for note 60 right after engine init leave
exactly one voice for 60. -/
theorem playNote_single_voice_witness :
    countKey 60 (playNote 60 1 (playNote 60 (1/2) (initEngine initSys))).activeNotes = 1 :=
  playNote_single_voice.2.1 (initEngine initSys) 60 (1/2) 1
    (Reachable.engineInit Reachable.start) rfl

/-- C2: on every reachable state, stopAllNotes leaves the active-note map
empty and the active voice count exactly 0 synchronously upon return (the
deferred disconnect timers it schedules touch only the audio-graph records,
never the map). -/
theorem stopAllNotes_clears_state :
    ∀ s : Sys, Reachable s →
      (stopAllNotes s).activeNotes = [] ∧ (stopAllNotes s).activeNoteCount = 0 := by
  intro s hr
  obtain ⟨-, h2, -, -, -, -⟩ := reachable_wf hr
  unfold stopAllNotes
  by_cases hi : s.isInit = true
  · rw [if_neg (by simp [hi])]
    exact ⟨rfl, rfl⟩
  · have hif : s.isInit = false := by simpa using hi
    rw [if_pos (by simp [hif])]
    exact h2 hif

/-- Witness for C2: stopping all notes while note 60 sounds empties the map
and zeroes the count. -/
theorem stopAllNotes_clears_state_witness :
    (stopAllNotes (playNote 60 (1/2) (initEngine initSys))).activeNotes = [] ∧
    (stopAllNotes (playNote 60 (1/2) (initEngine initSys))).activeNoteCount = 0 :=
  stopAllNotes_clears_state _ (Reachable.play 60 (1/2) (Reachable.engineInit Reachable.start))

/-! ### Claim C6 -/

theorem stopPlayback_isPlaying_false (s : Sys) : (stopPlayback s).isPlaying = false := by
  unfold stopPlayback
  split
  · rename_i h
    simpa using h
  · rfl

theorem stopAllNotes_clears_of_wf {s : Sys} (h : WF s) :
    (stopAllNotes s).activeNotes = [] ∧ (stopAllNotes s).activeNoteCount = 0 := by
  obtain ⟨-, h2, -, -, -, -⟩ := h
  unfold stopAllNotes
  by_cases hi : s.isInit = true
  · rw [if_neg (by simp [hi])]
    exact ⟨rfl, rfl⟩
  · have hif : s.isInit = false := by simpa using hi
    rw [if_pos (by simp [hif])]
    exact h2 hif

theorem WF_clearTimeouts {s : Sys} (h : WF s) :
    WF { s with
      timers := s.timers.filter (fun tm => !s.playbackTimeouts.contains tm.id)
      playbackTimeouts := [] } := by
  obtain ⟨h1, h2, h3, h4, h5, h6⟩ := h
  have hno1 : ∀ tm ∈ s.timers.filter (fun tm => !s.playbackTimeouts.contains tm.id),
      tm.action.isPlayback = false := by
    intro tm htm
    have hmem := List.mem_of_mem_filter htm
    have hfilt := List.of_mem_filter htm
    by_cases hpb : tm.action.isPlayback = true
    · have hid := h5 tm hmem hpb
      simp [hid] at hfilt
    · simpa using hpb
  refine ⟨h1, h2, h3, ?_, ?_, ?_⟩
  · intro tm htm oid hoid
    exact h4 tm (List.mem_of_mem_filter htm) oid hoid
  · intro tm htm hpb
    rw [hno1 tm htm] at hpb
    cases hpb
  · intro _ tm htm
    exact hno1 tm htm

theorem runTimers_succ_none {n t : Nat} {s : Sys} (hp : pickDue t s.timers = none) :
    runTimers (n + 1) t s = { s with now := max s.now t } := by
  conv_lhs => unfold runTimers
  rw [hp]

theorem runTimers_succ_some {n t : Nat} {s : Sys} {tm : Timer}
    (hp : pickDue t s.timers = some tm) :
    runTimers (n + 1) t s =
      runTimers n t
        (fireAction tm.action { s with timers := s.timers.erase tm, now := tm.fireAt }) := by
  conv_lhs => unfold runTimers
  rw [hp]

/-- Advancing the host event loop from a quiet state (no active voices, not
playing, no pending playback callbacks) never creates a voice. -/
theorem runTimers_quiet (fuel : Nat) : ∀ (t : Nat) (s : Sys),
    s.activeNotes = [] → s.isPlaying = false →
    (∀ tm ∈ s.timers, tm.action.isPlayback = false) →
    (runTimers fuel t s).activeNotes = [] := by
  induction fuel with
  | zero =>
    intro t s h1 _ _
    exact h1
  | succ n ih =>
    intro t s h1 h2 h3
    cases hp : pickDue t s.timers with
    | none =>
      rw [runTimers_succ_none hp]
      exact h1
    | some tm =>
      rw [runTimers_succ_some hp]
      obtain ⟨htm, -⟩ := pickDue_mem hp
      have hsub : ∀ x ∈ s.timers.erase tm, x ∈ s.timers := fun x hx =>
        (List.erase_sublist tm s.timers).subset hx
      cases hact : tm.action with
      | engineCleanup midi oscId =>
        have hl : ({ s with timers := s.timers.erase tm, now := tm.fireAt } : Sys).activeNotes.lookup
            midi = none := by
          show s.activeNotes.lookup midi = none
          rw [h1]
          rfl
        rw [fireAction_cleanup_none hl]
        exact ih t _ h1 h2 (fun x hx => h3 x (hsub x hx))
      | engineDisconnect oscId =>
        exact ih t _ h1 h2 (fun x hx => h3 x (hsub x hx))
      | playbackEvent index event =>
        have hcontra := h3 tm htm
        rw [hact] at hcontra
        simp [TimerAction.isPlayback] at hcontra
      | autoStop =>
        rw [fireAction_autoStop_eq]
        rw [show stopPlayback { s with timers := s.timers.erase tm, now := tm.fireAt } =
            { s with timers := s.timers.erase tm, now := tm.fireAt } from by
          unfold stopPlayback
          rw [if_pos (by simp [h2])]]
        exact ih t _ h1 h2 (fun x hx => h3 x (hsub x hx))

/-- C6: stopPlayback is a no-op when not playing; it always leaves playback
inactive; on a playing reachable state it silences the engine synchronously
(stopAllNotes), removes every pending playback callback, and no amount of
further host-timer processing can make any cancelled event's noteOn side
effect occur (the active-note map stays empty under advancement). -/
theorem stopPlayback_cancels :
    (∀ s : Sys, s.isPlaying = false → stopPlayback s = s) ∧
    (∀ s : Sys, (stopPlayback s).isPlaying = false) ∧
    (∀ s : Sys, Reachable s → s.isPlaying = true →
      (stopPlayback s).activeNotes = [] ∧ (stopPlayback s).activeNoteCount = 0) ∧
    (∀ s : Sys, Reachable s → ∀ tm ∈ (stopPlayback s).timers, tm.action.isPlayback = false) ∧
    (∀ s : Sys, Reachable s → s.isPlaying = true →
      ∀ fuel t : Nat, (runTimers fuel t (stopPlayback s)).activeNotes = []) := by
  have hclear : ∀ s : Sys, Reachable s → s.isPlaying = true →
      (stopPlayback s).activeNotes = [] ∧ (stopPlayback s).activeNoteCount = 0 := by
    intro s hr hp
    unfold stopPlayback
    rw [if_neg (by simp [hp])]
    exact stopAllNotes_clears_of_wf (WF_clearTimeouts (reachable_wf hr))
  have hnopb : ∀ s : Sys, Reachable s → ∀ tm ∈ (stopPlayback s).timers,
      tm.action.isPlayback = false := by
    intro s hr
    obtain ⟨-, -, -, -, -, g6⟩ := reachable_wf (Reachable.stopPlay hr)
    exact g6 (stopPlayback_isPlaying_false s)
  refine ⟨?_, stopPlayback_isPlaying_false, hclear, hnopb, ?_⟩
  · intro s h
    unfold stopPlayback
    rw [if_pos (by simp [h])]
  · intro s hr hp fuel t
    exact runTimers_quiet fuel t (stopPlayback s) (hclear s hr hp).1
      (stopPlayback_isPlaying_false s) (hnopb s hr)

/-- Witness for C6: on the idle start state (not playing) stopPlayback is a
no-op. -/
theorem stopPlayback_cancels_witness : stopPlayback initSys = initSys :=
  stopPlayback_cancels.1 initSys rfl

/-! ### Claim C8: release and cleanup of a stopped note -/

/-- Whether a deferred callback belongs to the audio engine (cleanup or
disconnect), as opposed to the playback scheduler. -/
def TimerAction.isEngine : TimerAction → Bool
  | .engineCleanup _ _ => true
  | .engineDisconnect _ => true
  | _ => false

/-- All pending timers are engine cleanup/disconnect callbacks. -/
def engineOnlyTimers (s : Sys) : Prop := ∀ tm ∈ s.timers, tm.action.isEngine = true

/-- Every record of the oscillator has its stop scheduled at the given
instant. -/
def oscStoppedAt (s : Sys) (oscId t0 : Nat) : Prop :=
  ∀ o ∈ s.oscs, o.id = oscId → o.stopAt = some t0

/-- Every record of the oscillator has been disconnected from the audio
graph. -/
def oscReleased (s : Sys) (oscId : Nat) : Prop :=
  ∀ o ∈ s.oscs, o.id = oscId → o.disconnected = true

theorem setOscDisconnected_stopAt {oscs : List OscRec} {oid t0 : Nat} (oid2 : Nat)
    (h : ∀ o ∈ oscs, o.id = oid → o.stopAt = some t0) :
    ∀ o ∈ setOscDisconnected oscs oid2, o.id = oid → o.stopAt = some t0 := by
  intro o ho hid
  simp only [setOscDisconnected, List.mem_map] at ho
  obtain ⟨o2, ho2, heq⟩ := ho
  by_cases h2 : o2.id = oid2
  · rw [if_pos h2] at heq
    subst heq
    exact h o2 ho2 hid
  · rw [if_neg h2] at heq
    subst heq
    exact h o2 ho2 hid

theorem setOscDisconnected_released {oscs : List OscRec} {oid : Nat} (oid2 : Nat)
    (h : ∀ o ∈ oscs, o.id = oid → o.disconnected = true) :
    ∀ o ∈ setOscDisconnected oscs oid2, o.id = oid → o.disconnected = true := by
  intro o ho hid
  simp only [setOscDisconnected, List.mem_map] at ho
  obtain ⟨o2, ho2, heq⟩ := ho
  by_cases h2 : o2.id = oid2
  · rw [if_pos h2] at heq
    subst heq
    rfl
  · rw [if_neg h2] at heq
    subst heq
    exact h o2 ho2 hid

theorem setOscDisconnected_released_self {oscs : List OscRec} {oid : Nat} :
    ∀ o ∈ setOscDisconnected oscs oid, o.id = oid → o.disconnected = true := by
  intro o ho hid
  simp only [setOscDisconnected, List.mem_map] at ho
  obtain ⟨o2, ho2, heq⟩ := ho
  by_cases h2 : o2.id = oid
  · rw [if_pos h2] at heq
    subst heq
    rfl
  · rw [if_neg h2] at heq
    subst heq
    exact absurd hid h2

theorem setOscStop_stopAt_self {oscs : List OscRec} {oid t0 : Nat} :
    ∀ o ∈ setOscStop oscs oid t0, o.id = oid → o.stopAt = some t0 := by
  intro o ho hid
  simp only [setOscStop, List.mem_map] at ho
  obtain ⟨o2, ho2, heq⟩ := ho
  by_cases h2 : o2.id = oid
  · rw [if_pos h2] at heq
    subst heq
    rfl
  · rw [if_neg h2] at heq
    subst heq
    exact absurd hid h2

theorem mem_erase_of_action_ne {tm tmw : Timer} {l : List Timer} (htmw : tmw ∈ l)
    (hne : tmw.action ≠ tm.action) : tmw ∈ l.erase tm :=
  (List.mem_erase_of_ne (fun hEq => hne (by rw [hEq]))).mpr htmw

/-- Running the host event loop on a state whose pending timers are all
engine callbacks: if a due cleanup for the note and oscillator is pending
while that voice is still in the map (or the voice is already gone and the
oscillator released), then after advancing past the deadline the voice entry
is gone, the oscillator is released, and its scheduled stop instant is
unchanged and in the past. -/
theorem runTimers_release (pn oid t0 t : Nat) : ∀ (fuel : Nat) (s : Sys),
    s.timers.length < fuel →
    engineOnlyTimers s →
    oscStoppedAt s oid t0 →
    ((∃ tm ∈ s.timers, tm.action = .engineCleanup pn oid ∧ tm.fireAt ≤ t) ∧
        (∃ w, s.activeNotes.lookup pn = some w ∧ w.oscId = oid) ∨
      s.activeNotes.lookup pn = none ∧ oscReleased s oid) →
    (runTimers fuel t s).activeNotes.lookup pn = none ∧
      oscReleased (runTimers fuel t s) oid ∧
      oscStoppedAt (runTimers fuel t s) oid t0 ∧
      t ≤ (runTimers fuel t s).now := by
  intro fuel
  induction fuel with
  | zero =>
    intro s hlen
    omega
  | succ k ih =>
    intro s hlen heng hstop hinv
    cases hp : pickDue t s.timers with
    | none =>
      rw [runTimers_succ_none hp]
      rcases hinv with ⟨⟨tmw, htmw, -, hfw⟩, -⟩ | ⟨hnone, hrel⟩
      · exact absurd hfw (pickDue_none hp tmw htmw)
      · exact ⟨hnone, hrel, hstop, le_max_right _ _⟩
    | some tm =>
      rw [runTimers_succ_some hp]
      obtain ⟨htm, hle⟩ := pickDue_mem hp
      have hlen0 : (s.timers.erase tm).length < k := by
        rw [List.length_erase_of_mem htm]
        have hpos := List.length_pos_of_mem htm
        omega
      have hsub : ∀ x ∈ s.timers.erase tm, x ∈ s.timers := fun x hx =>
        (List.erase_sublist tm s.timers).subset hx
      have heng0 : ∀ x ∈ s.timers.erase tm, x.action.isEngine = true := fun x hx =>
        heng x (hsub x hx)
      have hengine := heng tm htm
      cases hact : tm.action with
      | playbackEvent i e =>
        rw [hact] at hengine
        simp [TimerAction.isEngine] at hengine
      | autoStop =>
        rw [hact] at hengine
        simp [TimerAction.isEngine] at hengine
      | engineDisconnect oid2 =>
        apply ih
        · exact hlen0
        · exact heng0
        · exact setOscDisconnected_stopAt oid2 hstop
        · rcases hinv with ⟨⟨tmw, htmw, hactw, hfw⟩, ⟨w, hw, hwo⟩⟩ | ⟨hnone, hrel⟩
          · left
            refine ⟨⟨tmw, ?_, hactw, hfw⟩, ⟨w, hw, hwo⟩⟩
            refine mem_erase_of_action_ne htmw ?_
            rw [hactw, hact]
            intro hc
            cases hc
          · right
            exact ⟨hnone, setOscDisconnected_released oid2 hrel⟩
      | engineCleanup m oid2 =>
        by_cases hm : m = pn
        · subst hm
          rcases hinv with ⟨⟨tmw, htmw, hactw, hfw⟩, ⟨w, hw, hwo⟩⟩ | ⟨hnone, hrel⟩
          · have hw0 : ({ s with timers := s.timers.erase tm, now := tm.fireAt } :
                Sys).activeNotes.lookup m = some w := hw
            by_cases hoid : w.oscId = oid2
            · rw [fireAction_cleanup_same hw0 hoid]
              apply ih
              · exact hlen0
              · exact heng0
              · exact setOscDisconnected_stopAt oid2 hstop
              · right
                constructor
                · exact mapDelete_lookup_self
                · rw [show oid2 = oid from by rw [← hoid, hwo]]
                  exact setOscDisconnected_released_self
            · rw [fireAction_cleanup_other hw0 hoid]
              apply ih
              · exact hlen0
              · exact heng0
              · exact hstop
              · left
                refine ⟨⟨tmw, ?_, hactw, hfw⟩, ⟨w, hw, hwo⟩⟩
                refine mem_erase_of_action_ne htmw ?_
                rw [hactw, hact]
                intro hc
                injection hc with h1 h2
                exact hoid (by rw [hwo, ← h2])
          · have hnone0 : ({ s with timers := s.timers.erase tm, now := tm.fireAt } :
                Sys).activeNotes.lookup m = none := hnone
            rw [fireAction_cleanup_none hnone0]
            apply ih
            · exact hlen0
            · exact heng0
            · exact hstop
            · right
              exact ⟨hnone, hrel⟩
        · cases hlm : ({ s with timers := s.timers.erase tm, now := tm.fireAt } :
              Sys).activeNotes.lookup m with
          | none =>
            rw [fireAction_cleanup_none hlm]
            apply ih
            · exact hlen0
            · exact heng0
            · exact hstop
            · rcases hinv with ⟨⟨tmw, htmw, hactw, hfw⟩, ⟨w, hw, hwo⟩⟩ | ⟨hnone, hrel⟩
              · left
                refine ⟨⟨tmw, ?_, hactw, hfw⟩, ⟨w, hw, hwo⟩⟩
                refine mem_erase_of_action_ne htmw ?_
                rw [hactw, hact]
                intro hc
                injection hc with h1 h2
                exact hm h1.symm
              · right
                exact ⟨hnone, hrel⟩
          | some u =>
            by_cases hu : u.oscId = oid2
            · rw [fireAction_cleanup_same hlm hu]
              apply ih
              · exact hlen0
              · exact heng0
              · exact setOscDisconnected_stopAt oid2 hstop
              · rcases hinv with ⟨⟨tmw, htmw, hactw, hfw⟩, ⟨w, hw, hwo⟩⟩ | ⟨hnone, hrel⟩
                · left
                  constructor
                  · refine ⟨tmw, ?_, hactw, hfw⟩
                    refine mem_erase_of_action_ne htmw ?_
                    rw [hactw, hact]
                    intro hc
                    injection hc with h1 h2
                    exact hm h1.symm
                  · refine ⟨w, ?_, hwo⟩
                    rw [mapDelete_lookup_ne (fun hq => hm hq.symm)]
                    exact hw
                · right
                  constructor
                  · rw [mapDelete_lookup_ne (fun hq => hm hq.symm)]
                    exact hnone
                  · exact setOscDisconnected_released oid2 hrel
            · rw [fireAction_cleanup_other hlm hu]
              apply ih
              · exact hlen0
              · exact heng0
              · exact hstop
              · rcases hinv with ⟨⟨tmw, htmw, hactw, hfw⟩, ⟨w, hw, hwo⟩⟩ | ⟨hnone, hrel⟩
                · left
                  refine ⟨⟨tmw, ?_, hactw, hfw⟩, ⟨w, hw, hwo⟩⟩
                  refine mem_erase_of_action_ne htmw ?_
                  rw [hactw, hact]
                  intro hc
                  injection hc with h1 h2
                  exact hm h1.symm
                · right
                  exact ⟨hnone, hrel⟩

/-- C8: for a note with an active voice on an initialized engine whose
pending timers are engine callbacks, once stopNote runs and the full release
duration elapses with no intervening noteOn for that note, the voice entry is
gone from the active-note map, its oscillator/gain pair is disconnected, and
the oscillator stop scheduled at noteOff time + 150 ms lies in the past. -/
theorem stopNote_releases :
    ∀ (s : Sys) (pn : Nat) (v : Voice), s.isInit = true →
      engineOnlyTimers s →
      s.activeNotes.lookup pn = some v →
      ∀ (t fuel : Nat), s.now + 200 ≤ t → s.timers.length + 2 ≤ fuel →
        (runTimers fuel t (stopNote pn s)).activeNotes.lookup pn = none ∧
        oscReleased (runTimers fuel t (stopNote pn s)) v.oscId ∧
        oscStoppedAt (runTimers fuel t (stopNote pn s)) v.oscId (s.now + 150) ∧
        s.now + 150 < (runTimers fuel t (stopNote pn s)).now := by
  intro s pn v hinit heng hv t fuel ht hfuel
  have hstop : stopNote pn s = { s with
      oscs := setOscStop s.oscs v.oscId (s.now + 150)
      timers := s.timers ++ [⟨s.nextTimerId, s.now + 200, .engineCleanup pn v.oscId⟩]
      nextTimerId := s.nextTimerId + 1 } := by
    unfold stopNote
    rw [if_neg (by simp [hinit]), hv]
  rw [hstop]
  obtain ⟨c1, c2, c3, c4⟩ :=
    runTimers_release pn v.oscId (s.now + 150) t fuel
      { s with
        oscs := setOscStop s.oscs v.oscId (s.now + 150)
        timers := s.timers ++ [⟨s.nextTimerId, s.now + 200, .engineCleanup pn v.oscId⟩]
        nextTimerId := s.nextTimerId + 1 }
      (by simp only [List.length_append, List.length_cons, List.length_nil]; omega)
      (by
        intro tm htm
        rcases List.mem_append.mp htm with h1 | h1
        · exact heng tm h1
        · simp only [List.mem_singleton] at h1
          subst h1
          rfl)
      setOscStop_stopAt_self
      (Or.inl ⟨⟨_, List.mem_append_right _ (List.mem_singleton_self _), rfl, ht⟩, ⟨v, hv, rfl⟩⟩)
  exact ⟨c1, c2, c3, by omega⟩

/-- Witness for C8: after noteOn 60, noteOff 60 and 200 ms, the voice for 60
is gone. -/
theorem stopNote_releases_witness :
    (runTimers 2 200 (stopNote 60 (playNote 60 (1/2) (initEngine initSys)))).activeNotes.lookup 60 =
      none :=
  (stopNote_releases (playNote 60 (1/2) (initEngine initSys)) 60 ⟨0, 0, 1/2⟩ rfl
    (by intro tm htm; exact absurd htm (List.not_mem_nil tm))
    rfl 200 2 (by decide) (by decide)).1

/-! ### Claim C9: cleanup only removes the same voice instance -/

/-- Running engine-only timers never removes a voice entry whose oscillator
differs from every pending cleanup callback for that note. -/
theorem runTimers_newer_voice (pn newOid t : Nat) (w : Voice) (hwo : w.oscId = newOid) :
    ∀ (fuel : Nat) (s : Sys),
      engineOnlyTimers s →
      s.activeNotes.lookup pn = some w →
      (∀ tm ∈ s.timers, ∀ oid2, tm.action = .engineCleanup pn oid2 → oid2 ≠ newOid) →
      (runTimers fuel t s).activeNotes.lookup pn = some w := by
  intro fuel
  induction fuel with
  | zero =>
    intro s _ hw _
    exact hw
  | succ k ih =>
    intro s heng hw hcl
    cases hp : pickDue t s.timers with
    | none =>
      rw [runTimers_succ_none hp]
      exact hw
    | some tm =>
      rw [runTimers_succ_some hp]
      obtain ⟨htm, -⟩ := pickDue_mem hp
      have hsub : ∀ x ∈ s.timers.erase tm, x ∈ s.timers := fun x hx =>
        (List.erase_sublist tm s.timers).subset hx
      have heng0 : ∀ x ∈ s.timers.erase tm, x.action.isEngine = true := fun x hx =>
        heng x (hsub x hx)
      have hcl0 : ∀ x ∈ s.timers.erase tm, ∀ oid2, x.action = .engineCleanup pn oid2 →
          oid2 ≠ newOid := fun x hx => hcl x (hsub x hx)
      have hengine := heng tm htm
      cases hact : tm.action with
      | playbackEvent i e =>
        rw [hact] at hengine
        simp [TimerAction.isEngine] at hengine
      | autoStop =>
        rw [hact] at hengine
        simp [TimerAction.isEngine] at hengine
      | engineDisconnect oid2 => exact ih _ heng0 hw hcl0
      | engineCleanup m oid2 =>
        by_cases hm : m = pn
        · subst hm
          have hne : oid2 ≠ newOid := hcl tm htm oid2 hact
          have hw0 : ({ s with timers := s.timers.erase tm, now := tm.fireAt } :
              Sys).activeNotes.lookup m = some w := hw
          rw [fireAction_cleanup_other hw0 (by
            rw [hwo]
            intro hq
            exact hne hq.symm)]
          exact ih _ heng0 hw hcl0
        · cases hlm : ({ s with timers := s.timers.erase tm, now := tm.fireAt } :
              Sys).activeNotes.lookup m with
          | none =>
            rw [fireAction_cleanup_none hlm]
            exact ih _ heng0 hw hcl0
          | some u =>
            by_cases hu : u.oscId = oid2
            · rw [fireAction_cleanup_same hlm hu]
              apply ih
              · exact heng0
              · show (mapDelete s.activeNotes m).lookup pn = some w
                rw [mapDelete_lookup_ne (fun hq => hm hq.symm)]
                exact hw
              · exact hcl0
            · rw [fireAction_cleanup_other hlm hu]
              exact ih _ heng0 hw hcl0

/-- C9: the deferred cleanup scheduled by stopNote removes a voice entry for
a note only when the entry present at cleanup time is still the same voice
instance (same oscillator) that was scheduled for cleanup; consequently,
after stopNote, an emergency stop and a fresh noteOn for the same note, the
newer voice survives any amount of host-timer processing — the older cleanup
never deletes it. -/
theorem cleanup_same_instance_guard :
    (∀ (s : Sys) (pn oid : Nat) (w : Voice),
      s.activeNotes.lookup pn = some w → w.oscId ≠ oid →
      fireAction (.engineCleanup pn oid) s = s) ∧
    (∀ (s : Sys) (pn oid : Nat),
      (fireAction (.engineCleanup pn oid) s).activeNotes.lookup pn = none →
      s.activeNotes.lookup pn = none ∨
        ∃ w, s.activeNotes.lookup pn = some w ∧ w.oscId = oid) ∧
    (∀ (s : Sys) (pn : Nat) (v : Voice) (vel : ℚ), Reachable s → s.isInit = true →
      engineOnlyTimers s →
      s.activeNotes.lookup pn = some v →
      ∀ fuel t : Nat,
        (runTimers fuel t
            (playNote pn vel (stopAllNotes (stopNote pn s)))).activeNotes.lookup pn =
          some ⟨s.nextOscId, s.now, vel⟩) := by
  refine ⟨?_, ?_, ?_⟩
  · intro s pn oid w hw hne
    exact fireAction_cleanup_other hw hne
  · intro s pn oid hafter
    cases hl : s.activeNotes.lookup pn with
    | none => exact Or.inl rfl
    | some w =>
      by_cases hv : w.oscId = oid
      · exact Or.inr ⟨w, rfl, hv⟩
      · rw [fireAction_cleanup_other hl hv, hl] at hafter
        cases hafter
  · intro s pn v vel hr hinit heng hv fuel t
    obtain ⟨-, -, h3, h4, -, -⟩ := reachable_wf hr
    have hvm := lookup_some_mem hv
    have hstop : stopNote pn s = { s with
        oscs := setOscStop s.oscs v.oscId (s.now + 150)
        timers := s.timers ++ [⟨s.nextTimerId, s.now + 200, .engineCleanup pn v.oscId⟩]
        nextTimerId := s.nextTimerId + 1 } := by
      unfold stopNote
      rw [if_neg (by simp [hinit]), hv]
    have hs2 : stopAllNotes (stopNote pn s) = { s with
        oscs := stopOscs (setOscStop s.oscs v.oscId (s.now + 150)) s.now s.activeNotes
        timers := (s.timers ++ [⟨s.nextTimerId, s.now + 200, .engineCleanup pn v.oscId⟩]) ++
          disconnectTimers (s.nextTimerId + 1) s.now s.activeNotes
        nextTimerId := s.nextTimerId + 1 + s.activeNotes.length
        activeNotes := []
        activeNoteCount := 0 } := by
      rw [hstop]
      unfold stopAllNotes
      rw [if_neg (by simp [hinit]), stopAllLoop_spec]
    have hplay : playNote pn vel (stopAllNotes (stopNote pn s)) = { s with
        oscs := stopOscs (setOscStop s.oscs v.oscId (s.now + 150)) s.now s.activeNotes ++
          [⟨s.nextOscId, none, false⟩]
        timers := (s.timers ++ [⟨s.nextTimerId, s.now + 200, .engineCleanup pn v.oscId⟩]) ++
          disconnectTimers (s.nextTimerId + 1) s.now s.activeNotes
        nextTimerId := s.nextTimerId + 1 + s.activeNotes.length
        activeNotes := [] ++ [(pn, ⟨s.nextOscId, s.now, vel⟩)]
        activeNoteCount := 0 + 1
        nextOscId := s.nextOscId + 1 } := by
      rw [hs2]
      unfold playNote
      rw [if_neg (by simp [hinit]), if_neg (by simp [List.lookup])]
    rw [hplay]
    apply runTimers_newer_voice pn s.nextOscId t ⟨s.nextOscId, s.now, vel⟩ rfl fuel
    · intro tm htm
      rcases List.mem_append.mp htm with h1 | h1
      · rcases List.mem_append.mp h1 with h2 | h2
        · exact heng tm h2
        · simp only [List.mem_singleton] at h2
          subst h2
          rfl
      · obtain ⟨p, hp2, hact⟩ := disconnectTimers_action _ _ _ _ h1
        rw [hact]
        rfl
    · simp [List.lookup]
    · intro tm htm oid2 hq
      rcases List.mem_append.mp htm with h1 | h1
      · rcases List.mem_append.mp h1 with h2 | h2
        · have hb := h4 tm h2 oid2 (by rw [hq]; rfl)
          exact Nat.ne_of_lt hb
        · simp only [List.mem_singleton] at h2
          subst h2
          simp only [Timer.mk.injEq] at hq
          injection hq with hq1 hq2
          rw [← hq2]
          exact Nat.ne_of_lt (h3 _ hvm)
      · obtain ⟨p, hp2, hact⟩ := disconnectTimers_action _ _ _ _ h1
        rw [hact] at hq
        cases hq

/-- Witness for C9: a cleanup for oscillator 1 does not delete the live
voice of note 60, whose oscillator is 0. -/
theorem cleanup_same_instance_guard_witness :
    fireAction (.engineCleanup 60 1) (playNote 60 (1/2) (initEngine initSys)) =
      playNote 60 (1/2) (initEngine initSys) :=
  cleanup_same_instance_guard.1 (playNote 60 (1/2) (initEngine initSys)) 60 1 ⟨0, 0, 1/2⟩ rfl
    (by decide)
